import Mathlib

/-!
Shallow embedding of the smoothed-aggregation AMG hierarchy construction
from `cusp/precond/aggregation/detail/smoothed_aggregation.inl`.

Sparse matrices are modelled abstractly as a dimension triple plus an
index/value entry list (the concrete storage format being out of scope for
the orchestration code verified here).  The six pluggable strategy objects
of `sa_options` are modelled as function fields, exactly mirroring how the
builder consumes them.  Machine `size_t` arithmetic never overflows in the
quantities involved (level counts, row counts compared with `<`/`>`), so
`Nat` is used directly.
-/

namespace Cusp

/-- A sparse matrix: dimension fields (`num_rows`, `num_cols`, `num_entries`)
plus the index/value storage, abstracted as a list of `((row, col), value)`
entries.  A default-constructed matrix is 0 x 0 with 0 entries and empty
storage. -/
structure SpMatrix where
  num_rows : Nat
  num_cols : Nat
  num_entries : Nat
  data : List ((Nat × Nat) × Int)
deriving DecidableEq, Repr

instance : Inhabited SpMatrix := ⟨⟨0, 0, 0, []⟩⟩

/-- `sa_level`: the per-level setup record (coarse operator `A_`,
near-null-space vector `B`, `aggregates` map, smoothing scale `rho_DinvA`).
Default-constructed with an empty matrix and empty arrays. -/
structure SALevel where
  A_ : SpMatrix
  B : List Int
  aggregates : List Nat
  rho_DinvA : Int
deriving DecidableEq, Repr

instance : Inhabited SALevel := ⟨⟨default, [], [], 0⟩⟩

/-- A solver-facing level of the multilevel hierarchy (`Parent::level`):
operator `A`, restriction `R`, prolongation `P`, pre-sized `residual`,
`x` and `b` buffers (modelled by their lengths), and the smoother.
A smoother instance is modelled by the matrix it was constructed from
(`SmootherType(M)` becomes `some M`); a default level has no smoother. -/
structure PLevel where
  A : SpMatrix
  R : SpMatrix
  P : SpMatrix
  residual : Nat
  x : Nat
  b : Nat
  smoother : Option SpMatrix
deriving DecidableEq, Repr

instance : Inhabited PLevel := ⟨⟨default, default, default, 0, 0, 0, none⟩⟩

/-- The state of the parent multilevel solver: its own dimension fields
(set by `Parent::resize`), the solver-facing `levels` sequence, and the
coarse-level solver (modelled by the matrix it was constructed from). -/
structure MLState where
  num_rows : Nat
  num_cols : Nat
  num_entries : Nat
  levels : List PLevel
  solver : Option SpMatrix
deriving DecidableEq, Repr

instance : Inhabited MLState := ⟨⟨0, 0, 0, [], none⟩⟩

/-- The state of a `smoothed_aggregation` object: the parent multilevel
state plus the setup-time `sa_levels` sequence. -/
structure SAState where
  parent : MLState
  sa_levels : List SALevel
deriving DecidableEq, Repr

instance : Inhabited SAState := ⟨⟨default, []⟩⟩

/-- The options bundle: `min_level_size`, `max_levels`, and the six
pluggable strategy objects, modelled as functions with the call contracts
the builder uses.  `aggregate` receives the pre-initialized aggregates
array and returns the filled array (the in-place output parameter);
`fit_candidates` returns `(T, B_coarse)`; `smooth_prolongator` returns
`(P, rho_DinvA)`. -/
structure SAOptions where
  min_level_size : Nat
  max_levels : Nat
  strength_of_connection : SpMatrix → SpMatrix
  aggregate : SpMatrix → List Nat → List Nat
  fit_candidates : List Nat → List Int → SpMatrix × List Int
  smooth_prolongator : SpMatrix → SpMatrix → SpMatrix × Int
  form_restriction : SpMatrix → SpMatrix
  galerkin_product : SpMatrix → SpMatrix → SpMatrix → SpMatrix

/-- Apply `f` to the last element of a list (`container.back()` mutation);
identity on the empty list. -/
def updateLast (xs : List α) (f : α → α) : List α :=
  match xs with
  | [] => []
  | [x] => [f x]
  | x :: y :: ys => x :: updateLast (y :: ys) f

/-- `detail::setup_level_matrix`, same-type overload: `dst.swap(src)`.
Returns the pair `(dst, src)` after the swap. -/
def setup_level_matrix (dst src : SpMatrix) : SpMatrix × SpMatrix :=
  (src, dst)

/-- `cusp::constant_array<ValueType>(n, 1)` materialized as a vector. -/
def constant_array (n : Nat) (v : Int) : List Int :=
  List.replicate n v

/-- The aggregates array as initialized immediately before the call to the
aggregation strategy: `aggregates.resize(C.num_rows)` followed by
`cusp::blas::fill(aggregates, 0)`. -/
def aggregates_init (C : SpMatrix) : List Nat :=
  List.replicate C.num_rows 0

/-- `smoothed_aggregation::extend_hierarchy(A)`: one coarsening step.
Invokes the six strategies in order, stores `aggregates` and `rho_DinvA`
on the current last `sa_level`, pushes a new `sa_level` holding the
Galerkin product `RAP` and the coarse candidate `B_coarse`, transfers
`R`/`P` into the current last solver-facing level (via
`setup_level_matrix`, i.e. a swap with the default-empty fields), sizes
its residual, then pushes a new solver-facing level with `x`/`b` sized to
the coarse row count. -/
def extend_hierarchy (opts : SAOptions) (s : SAState) (A : SpMatrix) : SAState :=
  let C := opts.strength_of_connection A
  let aggregates := opts.aggregate C (aggregates_init C)
  let TB := opts.fit_candidates aggregates (s.sa_levels.getLastD default).B
  let Prho := opts.smooth_prolongator A TB.1
  let P := Prho.1
  let R := opts.form_restriction P
  let RAP := opts.galerkin_product R A P
  let sa1 := updateLast s.sa_levels
      (fun l => { l with aggregates := aggregates, rho_DinvA := Prho.2 })
  let sa2 := sa1 ++ [{ (default : SALevel) with A_ := RAP, B := TB.2 }]
  let lv1 := updateLast s.parent.levels
      (fun l => { l with
                  R := (setup_level_matrix l.R R).1,
                  P := (setup_level_matrix l.P P).1,
                  residual := A.num_rows })
  let lv2 := lv1 ++ [{ (default : PLevel) with x := RAP.num_rows, b := RAP.num_rows }]
  { parent := { s.parent with levels := lv2 }, sa_levels := sa2 }

/-- The `while` loop of `sa_initialize`: keep extending while the last
`sa_level`'s operator has more than `min_level_size` rows and fewer than
`max_levels` levels exist.  Fuelled recursion; each iteration grows
`sa_levels` by one, so any `fuel ≥ max_levels` is enough to reach the
loop's real exit (proved below). -/
def sa_loop (opts : SAOptions) : Nat → SAState → SAState
  | 0, s => s
  | fuel + 1, s =>
    if (s.sa_levels.getLastD default).A_.num_rows > opts.min_level_size ∧
       s.sa_levels.length < opts.max_levels then
      sa_loop opts fuel (extend_hierarchy opts s (s.sa_levels.getLastD default).A_)
    else s

/-- One iteration of the solve-matrix transfer loop, at index `lvl`:
`setup_level_matrix(Parent::levels[lvl].A, sa_levels[lvl].A_)` (a swap),
then `Parent::levels.back().smoother = SmootherType(Parent::levels[lvl].A)`.
Note the smoother is installed on `levels.back()`, as the code does. -/
def transfer_step (s : SAState) (lvl : Nat) : SAState :=
  let dst := (s.parent.levels.getD lvl default).A
  let src := (s.sa_levels.getD lvl default).A_
  let sw := setup_level_matrix dst src
  let lv1 := s.parent.levels.set lvl { s.parent.levels.getD lvl default with A := sw.1 }
  let sa1 := s.sa_levels.set lvl { s.sa_levels.getD lvl default with A_ := sw.2 }
  let lv2 := updateLast lv1
      (fun l => { l with smoother := some ((lv1.getD lvl default).A) })
  { parent := { s.parent with levels := lv2 }, sa_levels := sa1 }

/-- The `for (lvl = 1; lvl < sa_levels.size(); lvl++)` transfer loop. -/
def transfer_loop (s : SAState) : SAState :=
  (List.range' 1 (s.sa_levels.length - 1)).foldl transfer_step s

/-- `Modelled from the spec:` the final
`static_cast<BaseMatrixType&>(Parent::levels[0].A).resize(num_rows,
num_cols, num_entries)`.  `cusp::detail::matrix_base` is not under `src/`;
per the spec this re-establishes "the exact original dimensions and
nonzero count of the caller's input ... without reallocating its backing
storage", i.e. it sets only the three dimension fields and leaves the
index/value storage untouched. -/
def base_resize (m : SpMatrix) (rows cols entries : Nat) : SpMatrix :=
  { m with num_rows := rows, num_cols := cols, num_entries := entries }

/-- Lines 90-94 of `sa_initialize`: discard all previously built level
records and solver-facing levels when a hierarchy already exists. -/
def sa_reset (s : SAState) : SAState :=
  if s.sa_levels.length > 0 then
    { parent := { s.parent with levels := [] }, sa_levels := ([] : List SALevel) }
  else s

/-- Lines 96-110 of `sa_initialize`: `Parent::resize` to the input's
dimensions, push the first (default) solver-facing level and the first
`sa_level` carrying `B`, then conditionally extend once from the input
(via its COO view) and install `SmootherType(A)` on
`Parent::levels.back()`. -/
def sa_setup_pre (opts : SAOptions) (s : SAState) (A : SpMatrix) (B : List Int) :
    SAState :=
  let s := { s with parent :=
    { s.parent with num_rows := A.num_rows, num_cols := A.num_cols,
                    num_entries := A.num_entries } }
  let s := { s with parent :=
    { s.parent with levels := s.parent.levels ++ [(default : PLevel)] } }
  let s := { s with sa_levels :=
    s.sa_levels ++ [{ (default : SALevel) with B := B }] }
  if A.num_rows > opts.min_level_size then
    let s := extend_hierarchy opts s A
    let lvs := updateLast s.parent.levels (fun l => { l with smoother := some A })
    { s with parent := { s.parent with levels := lvs } }
  else s

/-- Lines 96-115 of `sa_initialize`: the pre-loop setup followed by the
iterative `while` loop. -/
def sa_setup (opts : SAOptions) (s : SAState) (A : SpMatrix) (B : List Int) :
    SAState :=
  sa_loop opts opts.max_levels (sa_setup_pre opts s A B)

/-- Line 131 of `sa_initialize`: the final base resize of the first
solver-facing level's operator to the input's exact dimensions. -/
def resize_first_level (s : SAState) (A : SpMatrix) : SAState :=
  let lvs :=
    match s.parent.levels with
    | [] => []
    | l0 :: rest =>
      { l0 with A := base_resize l0.A A.num_rows A.num_cols A.num_entries } :: rest
  { s with parent := { s.parent with levels := lvs } }

/-- Lines 117-131 of `sa_initialize`: build the coarse solver from the
last `sa_level`'s operator, run the per-level transfer loop, and resize
the first level's operator base to the input dimensions. -/
def sa_finalize (s : SAState) (A : SpMatrix) : SAState :=
  let s := { s with parent :=
    { s.parent with solver := some (s.sa_levels.getLastD default).A_ } }
  let s := transfer_loop s
  resize_first_level s A

/-- `smoothed_aggregation::sa_initialize(A, B)`: the full hierarchy
construction — reset, setup (including the coarsening loop), and
finalization, exactly in source order. -/
def sa_initialize2 (opts : SAOptions) (s : SAState) (A : SpMatrix) (B : List Int) :
    SAState :=
  sa_finalize (sa_setup opts (sa_reset s) A B) A

/-- `sa_initialize(A)`: the one-argument overload, delegating with a
constant all-ones candidate vector of length `A.num_rows`. -/
def sa_initialize1 (opts : SAOptions) (s : SAState) (A : SpMatrix) : SAState :=
  sa_initialize2 opts s A (constant_array A.num_rows 1)

/-- A storage-format tag, for the cross-format overload of
`setup_level_matrix` (the builder's `SetupMatrixType` versus the
solver-facing matrix type). -/
inductive MatrixFormat where
  | coo | csr | dia
deriving DecidableEq, Repr

/-- A matrix together with its storage-format tag: the abstraction of a
concrete `Matrix2` type distinct from `Matrix1`.  Numerical content is the
`mat` field; `fmt` records the representation. -/
structure FormatMatrix where
  fmt : MatrixFormat
  mat : SpMatrix
deriving DecidableEq, Repr

/-- `Modelled from the spec:` the cross-format overload
`setup_level_matrix(Matrix1& dst, Matrix2& src) { dst = src; }`.  The
converting assignment `operator=` between different cusp matrix formats is
not under `src/`; per the spec it "re-derives values via conversion" and
the two transfer paths "must produce numerically identical results", so it
is modelled as re-tagging the destination's format while preserving the
numerical content. -/
def setup_level_matrix_convert (dstFmt : MatrixFormat) (src : FormatMatrix) :
    FormatMatrix :=
  ⟨dstFmt, src.mat⟩

/-- A concrete strategy bundle satisfying all six shape contracts:
identity strength of connection, identity aggregation fill, a tentative
prolongator with one column per two unknowns, identity prolongator
smoothing, transpose restriction, and a Galerkin product with the R*A*P
shape. -/
def exOpts : SAOptions :=
  { min_level_size := 1
    max_levels := 10
    strength_of_connection := fun A => A
    aggregate := fun _ arr => arr
    fit_candidates := fun aggs _ =>
      (⟨aggs.length, aggs.length / 2, aggs.length, []⟩,
       List.replicate (aggs.length / 2) 1)
    smooth_prolongator := fun _ T => (T, 2)
    form_restriction := fun P => ⟨P.num_cols, P.num_rows, P.num_entries, []⟩
    galerkin_product := fun R _ P => ⟨R.num_rows, P.num_cols, R.num_rows * P.num_cols, []⟩ }

/-- A concrete 4 x 4 input operator with nonzero entry data. -/
def exA : SpMatrix := ⟨4, 4, 10, [((0, 0), 2), ((0, 1), -1)]⟩

/-- `exOpts` capped at a single level (`max_levels = 1`). -/
def exOptsCap : SAOptions := { exOpts with max_levels := 1 }

/-- A concrete 1 x 1 input operator, small enough that no coarsening
occurs under `exOpts` (`min_level_size = 1`). -/
def exSmall : SpMatrix := ⟨1, 1, 1, [((0, 0), 5)]⟩

/-- A strategy bundle with the same `min_level_size` and `max_levels` as
`exOpts` but entirely different strategy objects. -/
def exOptsAlt : SAOptions :=
  { exOpts with
    strength_of_connection := fun _ => default
    aggregate := fun _ _ => []
    fit_candidates := fun _ _ => (default, [])
    smooth_prolongator := fun _ _ => (default, 7)
    form_restriction := fun _ => default
    galerkin_product := fun _ _ _ => default }

/-- Auxiliary for the re-initialization analysis: the same state with the
coarse-solver slot replaced.  The builder never reads the solver slot
before unconditionally overwriting it at line 118, which the commuting
lemmas below make precise. -/
def withSolver (s : SAState) (v : Option SpMatrix) : SAState :=
  { s with parent := { s.parent with solver := v } }

/-- The local `C` of `extend_hierarchy`: the strength-of-connection
matrix. -/
def step_C (opts : SAOptions) (A : SpMatrix) : SpMatrix :=
  opts.strength_of_connection A

/-- The local `aggregates` of `extend_hierarchy` after the aggregation
call. -/
def step_aggs (opts : SAOptions) (A : SpMatrix) : List Nat :=
  opts.aggregate (step_C opts A) (aggregates_init (step_C opts A))

/-- The local `T` of `extend_hierarchy`: the tentative prolongator. -/
def step_T (opts : SAOptions) (s : SAState) (A : SpMatrix) : SpMatrix :=
  (opts.fit_candidates (step_aggs opts A) (s.sa_levels.getLastD default).B).1

/-- The local `P` of `extend_hierarchy`: the smoothed prolongator. -/
def step_P (opts : SAOptions) (s : SAState) (A : SpMatrix) : SpMatrix :=
  (opts.smooth_prolongator A (step_T opts s A)).1

/-- The local `R` of `extend_hierarchy`: the restriction operator. -/
def step_R (opts : SAOptions) (s : SAState) (A : SpMatrix) : SpMatrix :=
  opts.form_restriction (step_P opts s A)

/-- The local `RAP` of `extend_hierarchy`: the Galerkin product. -/
def step_RAP (opts : SAOptions) (s : SAState) (A : SpMatrix) : SpMatrix :=
  opts.galerkin_product (step_R opts s A) A (step_P opts s A)

/-- The retroactive update of the current last `sa_level` in
`extend_hierarchy` (lines 159 and 171): store `aggregates` and
`rho_DinvA`. -/
def sa_rec_update (opts : SAOptions) (s : SAState) (A : SpMatrix) :
    SALevel → SALevel :=
  fun l =>
    { l with
      aggregates := step_aggs opts A,
      rho_DinvA := (opts.smooth_prolongator A (step_T opts s A)).2 }

/-- The new `sa_level` pushed by `extend_hierarchy` (lines 172-174):
holds `RAP` and `B_coarse`. -/
def sa_rec_new (opts : SAOptions) (s : SAState) (A : SpMatrix) : SALevel :=
  { (default : SALevel) with
    A_ := step_RAP opts s A,
    B := (opts.fit_candidates (step_aggs opts A)
            (s.sa_levels.getLastD default).B).2 }

/-- The update of the current last solver-facing level in
`extend_hierarchy` (lines 176-178): install `R`, `P` and size the
residual buffer. -/
def lv_update (opts : SAOptions) (s : SAState) (A : SpMatrix) :
    PLevel → PLevel :=
  fun l => { l with
    R := (setup_level_matrix l.R (step_R opts s A)).1,
    P := (setup_level_matrix l.P (step_P opts s A)).1,
    residual := A.num_rows }

/-- The new solver-facing level pushed by `extend_hierarchy`
(lines 180-182): `x`/`b` sized to the coarse row count. -/
def lv_new (opts : SAOptions) (s : SAState) (A : SpMatrix) : PLevel :=
  { (default : PLevel) with
    x := (step_RAP opts s A).num_rows,
    b := (step_RAP opts s A).num_rows }

/-- Row count of level `k` during setup: level 0's operator is the input
(held only as a COO view, never stored in its `sa_level`), deeper levels'
operators live in their `sa_level` records. -/
def rowsAt (n0 : Nat) (sl : List SALevel) (k : Nat) : Nat :=
  if k = 0 then n0 else ((sl.getD k default)).A_.num_rows

/-- The dimension-chain invariant maintained over the setup-time state:
matching level counts, at least one level, an empty operator slot in the
level-0 record, and — for every level `k` that has been coarsened — the
`R`/`P`/`aggregates` shape facts of the claim. -/
def chainInv (n0 : Nat) (s : SAState) : Prop :=
  s.parent.levels.length = s.sa_levels.length ∧
  1 ≤ s.sa_levels.length ∧
  (s.sa_levels.getD 0 default).A_.num_rows = 0 ∧
  ∀ k, k + 1 < s.sa_levels.length →
    ((s.parent.levels.getD k default).R).num_rows = rowsAt n0 s.sa_levels (k + 1) ∧
    ((s.parent.levels.getD k default).P).num_cols = rowsAt n0 s.sa_levels (k + 1) ∧
    ((s.parent.levels.getD k default).R).num_cols = rowsAt n0 s.sa_levels k ∧
    ((s.parent.levels.getD k default).P).num_rows = rowsAt n0 s.sa_levels k ∧
    ((s.sa_levels.getD k default).aggregates).length = rowsAt n0 s.sa_levels k

/-! ### List helper lemmas -/

theorem length_updateLast (xs : List α) (f : α → α) :
    (updateLast xs f).length = xs.length := by
  induction xs with
  | nil => rfl
  | cons x xs ih =>
    cases xs with
    | nil => rfl
    | cons y ys => simpa [updateLast] using ih

theorem getD_updateLast_of_lt (xs : List α) (f : α → α) (i : Nat) (d : α)
    (h : i + 1 < xs.length) : (updateLast xs f).getD i d = xs.getD i d := by
  induction xs generalizing i with
  | nil => simp at h
  | cons x xs ih =>
    cases xs with
    | nil => simp at h
    | cons y ys =>
      cases i with
      | zero => rfl
      | succ j =>
        have := ih j (by simpa using h)
        simpa [updateLast] using this

theorem getD_updateLast_last (xs : List α) (f : α → α) (d : α) (h : xs ≠ []) :
    (updateLast xs f).getD (xs.length - 1) d = f (xs.getD (xs.length - 1) d) := by
  induction xs with
  | nil => exact absurd rfl h
  | cons x xs ih =>
    cases xs with
    | nil => rfl
    | cons y ys =>
      have := ih (by simp)
      simpa [updateLast] using this

theorem getLastD_updateLast (xs : List α) (f : α → α) (d : α) (h : xs ≠ []) :
    (updateLast xs f).getLastD d = f (xs.getLastD d) := by
  induction xs generalizing d with
  | nil => exact absurd rfl h
  | cons x xs ih =>
    cases xs with
    | nil => rfl
    | cons y ys =>
      rw [show updateLast (x :: y :: ys) f = x :: updateLast (y :: ys) f from rfl,
          List.getLastD_cons, List.getLastD_cons]
      exact ih x (by simp)

theorem getD_append_left (xs ys : List α) (i : Nat) (d : α) (h : i < xs.length) :
    (xs ++ ys).getD i d = xs.getD i d := by
  simp [List.getD_eq_getElem?_getD, List.getElem?_append_left h]

theorem getD_append_last (xs : List α) (y : α) (d : α) :
    (xs ++ [y]).getD xs.length d = y := by
  simp [List.getD_eq_getElem?_getD, List.getElem?_append_right (Nat.le_refl _)]

theorem getLastD_append_single (xs : List α) (y : α) (d : α) :
    (xs ++ [y]).getLastD d = y := by
  simp

theorem getLastD_eq_getD (xs : List α) (d : α) :
    xs.getLastD d = xs.getD (xs.length - 1) d := by
  simp [List.getLastD_eq_getLast?, List.getLast?_eq_getElem?, List.getD_eq_getElem?_getD]

theorem getD_set_ne (xs : List α) (i j : Nat) (a d : α) (h : i ≠ j) :
    (xs.set i a).getD j d = xs.getD j d := by
  simp [List.getD_eq_getElem?_getD, List.getElem?_set_ne h]

theorem getD_set_self (xs : List α) (i : Nat) (a d : α) (h : i < xs.length) :
    (xs.set i a).getD i d = a := by
  simp [List.getD_eq_getElem?_getD, List.getElem?_set_eq_of_lt a h]

theorem getD_updateLast_field {β : Type _} (xs : List α) (f : α → α) (i : Nat)
    (d : α) (g : α → β) (hg : ∀ l, g (f l) = g l) :
    g ((updateLast xs f).getD i d) = g (xs.getD i d) := by
  induction xs generalizing i with
  | nil => rfl
  | cons x xs ih =>
    cases xs with
    | nil =>
      cases i with
      | zero => exact hg x
      | succ j => rfl
    | cons y ys =>
      cases i with
      | zero => rfl
      | succ j => exact ih j

theorem getD_set_field {γ : Type _} {β : Type _} (xs : List γ) (j : Nat) (a : γ)
    (i : Nat) (d : γ) (g : γ → β) (hset : g a = g (xs.getD j d)) :
    g ((xs.set j a).getD i d) = g (xs.getD i d) := by
  by_cases hij : i = j
  · subst hij
    by_cases hlt : i < xs.length
    · rw [getD_set_self xs i a d hlt, hset]
    · rw [List.set_eq_of_length_le (Nat.le_of_not_lt hlt)]
  · rw [getD_set_ne xs j i a d (fun hji => hij hji.symm)]

/-! ### Basic facts about the builder -/

theorem extend_sa_length (opts : SAOptions) (s : SAState) (A : SpMatrix) :
    (extend_hierarchy opts s A).sa_levels.length = s.sa_levels.length + 1 := by
  simp [extend_hierarchy, length_updateLast]

theorem extend_lv_length (opts : SAOptions) (s : SAState) (A : SpMatrix) :
    (extend_hierarchy opts s A).parent.levels.length = s.parent.levels.length + 1 := by
  simp [extend_hierarchy, length_updateLast]

/-- Characterization of one coarsening step through the named step
quantities (`C`, `aggregates`, `T`, `P`, `R`, `RAP` of the source): the
last level record gets `aggregates` and `rho_DinvA`, a new record holding
`RAP` and `B_coarse` is appended, the last solver-facing level gets `R`,
`P` and a residual of `rows(A)`, and a new solver-facing level with
`x`/`b` sized to `rows(RAP)` is appended. -/
theorem extend_hierarchy_eq (opts : SAOptions) (s : SAState) (A : SpMatrix) :
    extend_hierarchy opts s A =
      ⟨{ s.parent with levels := (updateLast s.parent.levels (lv_update opts s A) ++
          [lv_new opts s A]) },
       (updateLast s.sa_levels (sa_rec_update opts s A) ++
        [sa_rec_new opts s A])⟩ := rfl

theorem getD_pushed_lt (xs : List α) (f : α → α) (y : α) (k : Nat) (d : α)
    (hk : k + 1 < xs.length) :
    (updateLast xs f ++ [y]).getD k d = xs.getD k d := by
  rw [getD_append_left _ _ _ _ (by rw [length_updateLast]; omega)]
  exact getD_updateLast_of_lt xs f k d hk

theorem getD_pushed_last (xs : List α) (f : α → α) (y : α) (d : α) (h : xs ≠ []) :
    (updateLast xs f ++ [y]).getD (xs.length - 1) d =
      f (xs.getD (xs.length - 1) d) := by
  rw [getD_append_left _ _ _ _ (by
    rw [length_updateLast]
    exact Nat.sub_lt (List.length_pos.mpr h) Nat.one_pos)]
  exact getD_updateLast_last xs f d h

theorem getD_pushed_new (xs : List α) (f : α → α) (y : α) (d : α) :
    (updateLast xs f ++ [y]).getD xs.length d = y := by
  have h : (updateLast xs f).length = xs.length := length_updateLast xs f
  rw [← h, getD_append_last]

theorem getD_pushed_field {β : Type _} (xs : List α) (f : α → α) (y : α)
    (k : Nat) (d : α) (g : α → β) (hk : k < xs.length)
    (hg : ∀ l, g (f l) = g l) :
    g ((updateLast xs f ++ [y]).getD k d) = g (xs.getD k d) := by
  rw [getD_append_left _ _ _ _ (by rw [length_updateLast]; omega)]
  exact getD_updateLast_field xs f k d g hg

/-! ### Claims -/

theorem extend_sa_A_of_lt (opts : SAOptions) (s : SAState) (A : SpMatrix)
    (j : Nat) (hj : j < s.sa_levels.length) :
    ((extend_hierarchy opts s A).sa_levels.getD j default).A_ =
      (s.sa_levels.getD j default).A_ := by
  rw [extend_hierarchy_eq]
  exact getD_pushed_field s.sa_levels (sa_rec_update opts s A)
    (sa_rec_new opts s A) j default SALevel.A_ hj (fun l => rfl)

theorem extend_sa_el_of_lt (opts : SAOptions) (s : SAState) (A : SpMatrix)
    (j : Nat) (hj : j + 1 < s.sa_levels.length) :
    (extend_hierarchy opts s A).sa_levels.getD j default =
      s.sa_levels.getD j default := by
  rw [extend_hierarchy_eq]; exact getD_pushed_lt _ _ _ _ _ hj

theorem extend_lv_el_of_lt (opts : SAOptions) (s : SAState) (A : SpMatrix)
    (j : Nat) (hj : j + 1 < s.parent.levels.length) :
    (extend_hierarchy opts s A).parent.levels.getD j default =
      s.parent.levels.getD j default := by
  rw [extend_hierarchy_eq]; exact getD_pushed_lt _ _ _ _ _ hj

theorem extend_sa_el_last (opts : SAOptions) (s : SAState) (A : SpMatrix)
    (h : s.sa_levels ≠ []) :
    (extend_hierarchy opts s A).sa_levels.getD (s.sa_levels.length - 1) default =
      sa_rec_update opts s A
        (s.sa_levels.getD (s.sa_levels.length - 1) default) := by
  rw [extend_hierarchy_eq]; exact getD_pushed_last _ _ _ _ h

theorem extend_lv_el_last (opts : SAOptions) (s : SAState) (A : SpMatrix)
    (h : s.parent.levels ≠ []) :
    (extend_hierarchy opts s A).parent.levels.getD
        (s.parent.levels.length - 1) default =
      lv_update opts s A
        (s.parent.levels.getD (s.parent.levels.length - 1) default) := by
  rw [extend_hierarchy_eq]; exact getD_pushed_last _ _ _ _ h

theorem extend_sa_el_new (opts : SAOptions) (s : SAState) (A : SpMatrix) :
    (extend_hierarchy opts s A).sa_levels.getD s.sa_levels.length default =
      sa_rec_new opts s A := by
  rw [extend_hierarchy_eq]; exact getD_pushed_new _ _ _ _

theorem rowsAt_extend_lt (n0 : Nat) (opts : SAOptions) (s : SAState)
    (A : SpMatrix) (j : Nat) (hj : j < s.sa_levels.length) :
    rowsAt n0 (extend_hierarchy opts s A).sa_levels j =
      rowsAt n0 s.sa_levels j := by
  by_cases h0 : j = 0
  · subst h0; rfl
  · rw [rowsAt, rowsAt, if_neg h0, if_neg h0,
        extend_sa_A_of_lt opts s A j hj]

theorem rowsAt_extend_new (n0 : Nat) (opts : SAOptions) (s : SAState)
    (A : SpMatrix) (h : s.sa_levels ≠ []) :
    rowsAt n0 (extend_hierarchy opts s A).sa_levels s.sa_levels.length =
      (step_RAP opts s A).num_rows := by
  rw [rowsAt, if_neg (fun hc => h (List.length_eq_zero.mp hc)),
      extend_sa_el_new]
  rfl

theorem step_P_rows (opts : SAOptions) (s : SAState) (A : SpMatrix)
    (hsoc : ∀ M, (opts.strength_of_connection M).num_rows = M.num_rows)
    (hagg : ∀ C arr, (opts.aggregate C arr).length = arr.length)
    (hfit : ∀ aggs Bv, ((opts.fit_candidates aggs Bv).1).num_rows = aggs.length)
    (hsm : ∀ M T, ((opts.smooth_prolongator M T).1).num_rows = T.num_rows) :
    (step_P opts s A).num_rows = A.num_rows := by
  rw [step_P, hsm, step_T, hfit, step_aggs, hagg]
  simp [aggregates_init, step_C, hsoc]

theorem step_aggs_len (opts : SAOptions) (A : SpMatrix)
    (hsoc : ∀ M, (opts.strength_of_connection M).num_rows = M.num_rows)
    (hagg : ∀ C arr, (opts.aggregate C arr).length = arr.length) :
    (step_aggs opts A).length = A.num_rows := by
  rw [step_aggs, hagg]
  simp [aggregates_init, step_C, hsoc]

/-- One coarsening step preserves the dimension-chain invariant, adding
the shape facts for the newly coarsened level. -/
theorem chainInv_extend (opts : SAOptions) (n0 : Nat) (s : SAState)
    (A : SpMatrix)
    (hsoc : ∀ M, (opts.strength_of_connection M).num_rows = M.num_rows)
    (hagg : ∀ C arr, (opts.aggregate C arr).length = arr.length)
    (hfit : ∀ aggs Bv, ((opts.fit_candidates aggs Bv).1).num_rows = aggs.length)
    (hsm : ∀ M T, ((opts.smooth_prolongator M T).1).num_rows = T.num_rows)
    (hres : ∀ P, (opts.form_restriction P).num_rows = P.num_cols ∧
                 (opts.form_restriction P).num_cols = P.num_rows)
    (hgal : ∀ R M P, (opts.galerkin_product R M P).num_rows = R.num_rows ∧
                     (opts.galerkin_product R M P).num_cols = P.num_cols)
    (hinv : chainInv n0 s)
    (hA : A.num_rows = rowsAt n0 s.sa_levels (s.sa_levels.length - 1)) :
    chainInv n0 (extend_hierarchy opts s A) := by
  obtain ⟨hlen, hone, hzero, hfacts⟩ := hinv
  have hone' : 0 < s.sa_levels.length := hone
  have hsa_ne : s.sa_levels ≠ [] := List.length_pos.mp hone'
  have hlv_ne : s.parent.levels ≠ [] := by
    intro hc; rw [hc] at hlen; simp at hlen; omega
  refine ⟨?_, ?_, ?_, ?_⟩
  · rw [extend_sa_length, extend_lv_length, hlen]
  · rw [extend_sa_length]; omega
  · rw [extend_sa_A_of_lt opts s A 0 hone']; exact hzero
  · intro k hk
    rw [extend_sa_length] at hk
    by_cases hcase : k + 1 < s.sa_levels.length
    · obtain ⟨f1, f2, f3, f4, f5⟩ := hfacts k hcase
      rw [extend_lv_el_of_lt opts s A k (by omega),
          extend_sa_el_of_lt opts s A k hcase,
          rowsAt_extend_lt n0 opts s A (k + 1) hcase,
          rowsAt_extend_lt n0 opts s A k (by omega)]
      exact ⟨f1, f2, f3, f4, f5⟩
    · have hkeq : k + 1 = s.sa_levels.length := by omega
      have hk1 : k = s.sa_levels.length - 1 := by omega
      have e_lv : (extend_hierarchy opts s A).parent.levels.getD k default =
          lv_update opts s A (s.parent.levels.getD k default) := by
        have h1 := extend_lv_el_last opts s A hlv_ne
        rw [hlen, ← hk1] at h1
        exact h1
      have e_sa : (extend_hierarchy opts s A).sa_levels.getD k default =
          sa_rec_update opts s A (s.sa_levels.getD k default) := by
        have h1 := extend_sa_el_last opts s A hsa_ne
        rw [← hk1] at h1
        exact h1
      have e_r1 : rowsAt n0 (extend_hierarchy opts s A).sa_levels (k + 1) =
          (step_RAP opts s A).num_rows := by
        rw [hkeq]; exact rowsAt_extend_new n0 opts s A hsa_ne
      have e_r0 : rowsAt n0 (extend_hierarchy opts s A).sa_levels k =
          A.num_rows := by
        rw [rowsAt_extend_lt n0 opts s A k (by omega), hk1]
        exact hA.symm
      rw [e_lv, e_sa, e_r1, e_r0]
      refine ⟨?_, ?_, ?_, ?_, ?_⟩
      · show (step_R opts s A).num_rows = (step_RAP opts s A).num_rows
        rw [step_RAP, (hgal _ _ _).1]
      · show (step_P opts s A).num_cols = (step_RAP opts s A).num_rows
        rw [step_RAP, (hgal _ _ _).1, step_R, (hres _).1]
      · show (step_R opts s A).num_cols = A.num_rows
        rw [step_R, (hres _).2]
        exact step_P_rows opts s A hsoc hagg hfit hsm
      · show (step_P opts s A).num_rows = A.num_rows
        exact step_P_rows opts s A hsoc hagg hfit hsm
      · show (step_aggs opts A).length = A.num_rows
        exact step_aggs_len opts A hsoc hagg

/-- Installing a smoother on the last solver-facing level preserves the
dimension-chain invariant. -/
theorem chainInv_smoother (n0 : Nat) (s : SAState) (M : SpMatrix)
    (hinv : chainInv n0 s) :
    chainInv n0 { s with parent := { s.parent with levels :=
      (updateLast s.parent.levels (fun l => { l with smoother := some M })) } } := by
  obtain ⟨hlen, hone, hzero, hfacts⟩ := hinv
  refine ⟨?_, hone, hzero, ?_⟩
  · show (updateLast s.parent.levels _).length = s.sa_levels.length
    rw [length_updateLast]; exact hlen
  · intro k hk
    obtain ⟨f1, f2, f3, f4, f5⟩ := hfacts k hk
    have eR := getD_updateLast_field s.parent.levels
      (fun (l : PLevel) => { l with smoother := some M }) k default PLevel.R
      (fun l => rfl)
    have eP := getD_updateLast_field s.parent.levels
      (fun (l : PLevel) => { l with smoother := some M }) k default PLevel.P
      (fun l => rfl)
    refine ⟨?_, ?_, ?_, ?_, f5⟩
    · show ((updateLast s.parent.levels
          (fun (l : PLevel) => { l with smoother := some M })).getD k
          default).R.num_rows = rowsAt n0 s.sa_levels (k + 1)
      rw [eR]; exact f1
    · show ((updateLast s.parent.levels
          (fun (l : PLevel) => { l with smoother := some M })).getD k
          default).P.num_cols = rowsAt n0 s.sa_levels (k + 1)
      rw [eP]; exact f2
    · show ((updateLast s.parent.levels
          (fun (l : PLevel) => { l with smoother := some M })).getD k
          default).R.num_cols = rowsAt n0 s.sa_levels k
      rw [eR]; exact f3
    · show ((updateLast s.parent.levels
          (fun (l : PLevel) => { l with smoother := some M })).getD k
          default).P.num_rows = rowsAt n0 s.sa_levels k
      rw [eP]; exact f4

/-- The while loop preserves the dimension-chain invariant. -/
theorem chainInv_loop (opts : SAOptions) (n0 : Nat) (fuel : Nat) (s : SAState)
    (hsoc : ∀ M, (opts.strength_of_connection M).num_rows = M.num_rows)
    (hagg : ∀ C arr, (opts.aggregate C arr).length = arr.length)
    (hfit : ∀ aggs Bv, ((opts.fit_candidates aggs Bv).1).num_rows = aggs.length)
    (hsm : ∀ M T, ((opts.smooth_prolongator M T).1).num_rows = T.num_rows)
    (hres : ∀ P, (opts.form_restriction P).num_rows = P.num_cols ∧
                 (opts.form_restriction P).num_cols = P.num_rows)
    (hgal : ∀ R M P, (opts.galerkin_product R M P).num_rows = R.num_rows ∧
                     (opts.galerkin_product R M P).num_cols = P.num_cols)
    (hinv : chainInv n0 s) :
    chainInv n0 (sa_loop opts fuel s) := by
  induction fuel generalizing s with
  | zero => exact hinv
  | succ n ih =>
    by_cases hc : (s.sa_levels.getLastD default).A_.num_rows > opts.min_level_size ∧
        s.sa_levels.length < opts.max_levels
    · rw [sa_loop, if_pos hc]
      refine ih _ (chainInv_extend opts n0 s _ hsoc hagg hfit hsm hres hgal hinv ?_)
      obtain ⟨hlen, hone, hzero, _⟩ := hinv
      by_cases hL : s.sa_levels.length - 1 = 0
      · exfalso
        have hc1 := hc.1
        have hx : (s.sa_levels.getLastD default).A_.num_rows = 0 := by
          rw [getLastD_eq_getD, hL]
          exact hzero
        omega
      · rw [rowsAt, if_neg hL, getLastD_eq_getD]
    · rw [sa_loop, if_neg hc]; exact hinv

/-- The pre-loop setup establishes the dimension-chain invariant. -/
theorem chainInv_setup_pre (opts : SAOptions) (s : SAState) (A : SpMatrix)
    (B : List Int)
    (hsoc : ∀ M, (opts.strength_of_connection M).num_rows = M.num_rows)
    (hagg : ∀ C arr, (opts.aggregate C arr).length = arr.length)
    (hfit : ∀ aggs Bv, ((opts.fit_candidates aggs Bv).1).num_rows = aggs.length)
    (hsm : ∀ M T, ((opts.smooth_prolongator M T).1).num_rows = T.num_rows)
    (hres : ∀ P, (opts.form_restriction P).num_rows = P.num_cols ∧
                 (opts.form_restriction P).num_cols = P.num_rows)
    (hgal : ∀ R M P, (opts.galerkin_product R M P).num_rows = R.num_rows ∧
                     (opts.galerkin_product R M P).num_cols = P.num_cols)
    (hlv0 : s.parent.levels = []) (hsa0 : s.sa_levels = []) :
    chainInv A.num_rows (sa_setup_pre opts s A B) := by
  have hbase : chainInv A.num_rows
      ⟨⟨A.num_rows, A.num_cols, A.num_entries, [(default : PLevel)],
        s.parent.solver⟩, [{ (default : SALevel) with B := B }]⟩ := by
    refine ⟨rfl, by simp, rfl, ?_⟩
    intro k hk
    simp at hk
  simp only [sa_setup_pre, hlv0, hsa0, List.nil_append]
  by_cases h : A.num_rows > opts.min_level_size
  · rw [if_pos h]
    refine chainInv_smoother _ _ _ ?_
    exact chainInv_extend opts A.num_rows _ A hsoc hagg hfit hsm hres hgal
      hbase rfl
  · rw [if_neg h]
    exact hbase

theorem sa_loop_length_le (opts : SAOptions) (fuel : Nat) (s : SAState)
    (h : s.sa_levels.length ≤ opts.max_levels) :
    (sa_loop opts fuel s).sa_levels.length ≤ opts.max_levels := by
  induction fuel generalizing s with
  | zero => exact h
  | succ n ih =>
    by_cases hc : (s.sa_levels.getLastD default).A_.num_rows > opts.min_level_size ∧
        s.sa_levels.length < opts.max_levels
    · rw [sa_loop, if_pos hc]
      exact ih _ (by rw [extend_sa_length]; exact hc.2)
    · rw [sa_loop, if_neg hc]; exact h

theorem sa_loop_length_ge (opts : SAOptions) (fuel : Nat) (s : SAState) :
    s.sa_levels.length ≤ (sa_loop opts fuel s).sa_levels.length := by
  induction fuel generalizing s with
  | zero => exact Nat.le_refl _
  | succ n ih =>
    by_cases hc : (s.sa_levels.getLastD default).A_.num_rows > opts.min_level_size ∧
        s.sa_levels.length < opts.max_levels
    · rw [sa_loop, if_pos hc]
      calc s.sa_levels.length
          ≤ (extend_hierarchy opts s
              (s.sa_levels.getLastD default).A_).sa_levels.length := by
            rw [extend_sa_length]; omega
        _ ≤ _ := ih _
    · rw [sa_loop, if_neg hc]

theorem sa_loop_exit (opts : SAOptions) (fuel : Nat) (s : SAState)
    (h : opts.max_levels ≤ fuel + s.sa_levels.length) :
    ¬((((sa_loop opts fuel s).sa_levels.getLastD default).A_.num_rows >
        opts.min_level_size) ∧
      (sa_loop opts fuel s).sa_levels.length < opts.max_levels) := by
  induction fuel generalizing s with
  | zero => simp only [sa_loop]; intro hc; omega
  | succ n ih =>
    by_cases hc : (s.sa_levels.getLastD default).A_.num_rows > opts.min_level_size ∧
        s.sa_levels.length < opts.max_levels
    · rw [sa_loop, if_pos hc]
      exact ih _ (by rw [extend_sa_length]; omega)
    · rw [sa_loop, if_neg hc]; exact hc

theorem sa_loop_lengths (opts : SAOptions) (fuel : Nat) (s : SAState)
    (h : s.parent.levels.length = s.sa_levels.length) :
    (sa_loop opts fuel s).parent.levels.length =
      (sa_loop opts fuel s).sa_levels.length := by
  induction fuel generalizing s with
  | zero => exact h
  | succ n ih =>
    by_cases hc : (s.sa_levels.getLastD default).A_.num_rows > opts.min_level_size ∧
        s.sa_levels.length < opts.max_levels
    · rw [sa_loop, if_pos hc]
      exact ih _ (by rw [extend_sa_length, extend_lv_length, h])
    · rw [sa_loop, if_neg hc]; exact h

theorem transfer_step_sa_length (s : SAState) (lvl : Nat) :
    (transfer_step s lvl).sa_levels.length = s.sa_levels.length := by
  simp [transfer_step]

theorem transfer_step_lv_length (s : SAState) (lvl : Nat) :
    (transfer_step s lvl).parent.levels.length = s.parent.levels.length := by
  simp [transfer_step, length_updateLast]

theorem transfer_fold_sa_length (is : List Nat) (s : SAState) :
    ((is.foldl transfer_step s)).sa_levels.length = s.sa_levels.length := by
  induction is generalizing s with
  | nil => rfl
  | cons i is ih => rw [List.foldl_cons, ih, transfer_step_sa_length]

theorem transfer_fold_lv_length (is : List Nat) (s : SAState) :
    ((is.foldl transfer_step s)).parent.levels.length = s.parent.levels.length := by
  induction is generalizing s with
  | nil => rfl
  | cons i is ih => rw [List.foldl_cons, ih, transfer_step_lv_length]

theorem transfer_step_A (s : SAState) (lvl i : Nat) :
    ((transfer_step s lvl).parent.levels.getD i default).A =
      if i = lvl ∧ i < s.parent.levels.length
      then (s.sa_levels.getD lvl default).A_
      else (s.parent.levels.getD i default).A := by
  have hA : ∀ (xs : List PLevel) (m : SpMatrix) (j : Nat),
      ((updateLast xs (fun l => { l with smoother := some m })).getD j default).A =
      (xs.getD j default).A :=
    fun xs m j => getD_updateLast_field xs
      (fun (l : PLevel) => { l with smoother := some m }) j default PLevel.A
      (fun l => rfl)
  show ((updateLast _ (fun (l : PLevel) => { l with smoother := some _ })).getD
      i default).A = _
  rw [hA]
  by_cases hc : i = lvl ∧ i < s.parent.levels.length
  · rw [if_pos hc]
    obtain ⟨h1, h2⟩ := hc
    subst h1
    rw [getD_set_self _ _ _ _ h2]
    rfl
  · rw [if_neg hc]
    by_cases hij : i = lvl
    · have hge : s.parent.levels.length ≤ i := by
        rcases Nat.lt_or_ge i s.parent.levels.length with hlt | hge
        · exact absurd ⟨hij, hlt⟩ hc
        · exact hge
      rw [List.set_eq_of_length_le (hij ▸ hge)]
    · rw [getD_set_ne _ _ _ _ _ (fun hji => hij hji.symm)]

theorem transfer_step_sa_A (s : SAState) (lvl i : Nat) (h : i ≠ lvl) :
    ((transfer_step s lvl).sa_levels.getD i default).A_ =
      (s.sa_levels.getD i default).A_ := by
  show SALevel.A_ ((List.set _ _ _).getD i default) = _
  rw [getD_set_ne _ _ _ _ _ (fun hji => h hji.symm)]

theorem transfer_fold_A (n : Nat) : ∀ (a : Nat) (s : SAState), 1 ≤ a →
    a + n ≤ s.parent.levels.length →
    ∀ i, (((List.range' a n).foldl transfer_step s).parent.levels.getD i default).A =
      if a ≤ i ∧ i < a + n then (s.sa_levels.getD i default).A_
      else (s.parent.levels.getD i default).A := by
  induction n with
  | zero =>
    intro a s _ _ i
    rw [show List.range' a 0 = [] from rfl, List.foldl_nil, if_neg (by omega)]
  | succ n ih =>
    intro a s ha hle i
    rw [List.range'_succ a n 1, List.foldl_cons]
    have hlen : (transfer_step s a).parent.levels.length =
        s.parent.levels.length := transfer_step_lv_length s a
    rw [ih (a + 1) (transfer_step s a) (by omega) (by omega) i]
    by_cases h1 : a + 1 ≤ i ∧ i < a + 1 + n
    · rw [if_pos h1, if_pos (by omega)]
      exact transfer_step_sa_A s a i (by omega)
    · rw [if_neg h1, transfer_step_A s a i]
      by_cases h2 : i = a
      · subst h2
        rw [if_pos ⟨rfl, by omega⟩, if_pos (by omega)]
      · rw [if_neg (by tauto), if_neg (by omega)]

theorem resize_first_sa (s : SAState) (A : SpMatrix) :
    (resize_first_level s A).sa_levels = s.sa_levels := rfl

theorem resize_first_lv_length (s : SAState) (A : SpMatrix) :
    (resize_first_level s A).parent.levels.length = s.parent.levels.length := by
  rcases hs : s.parent.levels with _ | ⟨l0, rest⟩ <;>
    simp [resize_first_level, hs]

theorem resize_first_getD_pos (s : SAState) (A : SpMatrix) (i : Nat) (h : 1 ≤ i) :
    (resize_first_level s A).parent.levels.getD i default =
      s.parent.levels.getD i default := by
  rcases hs : s.parent.levels with _ | ⟨l0, rest⟩
  · simp [resize_first_level, hs]
  · cases i with
    | zero => omega
    | succ j => simp [resize_first_level, hs]

theorem sa_reset_empty (s : SAState)
    (hcons : s.sa_levels = [] → s.parent.levels = []) :
    (sa_reset s).parent.levels = [] ∧ (sa_reset s).sa_levels = [] := by
  rcases s with ⟨⟨nr, nc, ne, lvs, sv⟩, sl⟩
  rcases sl with _ | ⟨l, ls⟩
  · exact ⟨by simpa [sa_reset] using hcons rfl, by simp [sa_reset]⟩
  · simp [sa_reset]

/-- In the non-degenerate case the pre-loop setup leaves exactly two
level records and two solver-facing levels. -/
theorem sa_setup_pre_lengths (opts : SAOptions) (s : SAState) (A : SpMatrix)
    (B : List Int) (hlv0 : s.parent.levels = []) (hsa0 : s.sa_levels = [])
    (h : opts.min_level_size < A.num_rows) :
    (sa_setup_pre opts s A B).sa_levels.length = 2 ∧
    (sa_setup_pre opts s A B).parent.levels.length = 2 := by
  simp only [sa_setup_pre, hlv0, hsa0, List.nil_append]
  rw [if_pos h]
  constructor
  · simp [extend_sa_length]
  · simp [length_updateLast, extend_lv_length]

/-- The transfer loop plus the final resize move the level-`i` operator
(`1 ≤ i < #levels`) from the `sa_level` record into the solver-facing
level unchanged. -/
theorem finalize_chain_A (T : SAState) (A : SpMatrix) (i : Nat)
    (h1 : 1 ≤ i) (h2 : i < T.sa_levels.length)
    (heq : T.parent.levels.length = T.sa_levels.length) :
    ((resize_first_level (transfer_loop T) A).parent.levels.getD i default).A =
      (T.sa_levels.getD i default).A_ := by
  rw [resize_first_getD_pos _ _ _ h1]
  simp only [transfer_loop]
  rw [transfer_fold_A (T.sa_levels.length - 1) 1 T (Nat.le_refl 1) (by omega) i]
  rw [if_pos ⟨h1, by omega⟩]

theorem transfer_step_R (s : SAState) (lvl i : Nat) :
    ((transfer_step s lvl).parent.levels.getD i default).R =
      (s.parent.levels.getD i default).R := by
  have h1 : ∀ (xs : List PLevel) (m : SpMatrix) (j : Nat),
      ((updateLast xs (fun l => { l with smoother := some m })).getD j default).R =
      (xs.getD j default).R :=
    fun xs m j => getD_updateLast_field xs
      (fun (l : PLevel) => { l with smoother := some m }) j default PLevel.R
      (fun l => rfl)
  show ((updateLast _ (fun (l : PLevel) => { l with smoother := some _ })).getD
      i default).R = _
  rw [h1]
  exact getD_set_field _ _ _ _ _ PLevel.R rfl

theorem transfer_step_P (s : SAState) (lvl i : Nat) :
    ((transfer_step s lvl).parent.levels.getD i default).P =
      (s.parent.levels.getD i default).P := by
  have h1 : ∀ (xs : List PLevel) (m : SpMatrix) (j : Nat),
      ((updateLast xs (fun l => { l with smoother := some m })).getD j default).P =
      (xs.getD j default).P :=
    fun xs m j => getD_updateLast_field xs
      (fun (l : PLevel) => { l with smoother := some m }) j default PLevel.P
      (fun l => rfl)
  show ((updateLast _ (fun (l : PLevel) => { l with smoother := some _ })).getD
      i default).P = _
  rw [h1]
  exact getD_set_field _ _ _ _ _ PLevel.P rfl

theorem transfer_step_aggs (s : SAState) (lvl i : Nat) :
    ((transfer_step s lvl).sa_levels.getD i default).aggregates =
      (s.sa_levels.getD i default).aggregates := by
  exact getD_set_field _ _ _ _ _ SALevel.aggregates rfl

theorem transfer_fold_R (is : List Nat) (s : SAState) (i : Nat) :
    (((is.foldl transfer_step s)).parent.levels.getD i default).R =
      (s.parent.levels.getD i default).R := by
  induction is generalizing s with
  | nil => rfl
  | cons j js ih => rw [List.foldl_cons, ih, transfer_step_R]

theorem transfer_fold_P (is : List Nat) (s : SAState) (i : Nat) :
    (((is.foldl transfer_step s)).parent.levels.getD i default).P =
      (s.parent.levels.getD i default).P := by
  induction is generalizing s with
  | nil => rfl
  | cons j js ih => rw [List.foldl_cons, ih, transfer_step_P]

theorem transfer_fold_aggs (is : List Nat) (s : SAState) (i : Nat) :
    (((is.foldl transfer_step s)).sa_levels.getD i default).aggregates =
      (s.sa_levels.getD i default).aggregates := by
  induction is generalizing s with
  | nil => rfl
  | cons j js ih => rw [List.foldl_cons, ih, transfer_step_aggs]

theorem resize_first_R (s : SAState) (A : SpMatrix) (i : Nat) :
    ((resize_first_level s A).parent.levels.getD i default).R =
      (s.parent.levels.getD i default).R := by
  rcases hs : s.parent.levels with _ | ⟨l0, rest⟩
  · simp [resize_first_level, hs]
  · cases i with
    | zero => simp [resize_first_level, hs]
    | succ j => simp [resize_first_level, hs]

theorem resize_first_P (s : SAState) (A : SpMatrix) (i : Nat) :
    ((resize_first_level s A).parent.levels.getD i default).P =
      (s.parent.levels.getD i default).P := by
  rcases hs : s.parent.levels with _ | ⟨l0, rest⟩
  · simp [resize_first_level, hs]
  · cases i with
    | zero => simp [resize_first_level, hs]
    | succ j => simp [resize_first_level, hs]

theorem sa_finalize_sa_length (S : SAState) (A : SpMatrix) :
    (sa_finalize S A).sa_levels.length = S.sa_levels.length := by
  simp only [sa_finalize, resize_first_sa, transfer_loop, transfer_fold_sa_length]

theorem sa_finalize_lv_length (S : SAState) (A : SpMatrix)
    (heq : S.parent.levels.length = S.sa_levels.length) :
    (sa_finalize S A).parent.levels.length = S.sa_levels.length := by
  simp only [sa_finalize, resize_first_lv_length, transfer_loop,
             transfer_fold_lv_length]
  exact heq

/-- After finalization, the last solver-facing level's operator is the
last `sa_level` record's operator, as moved by the transfer loop. -/
theorem sa_finalize_last_A (S : SAState) (A : SpMatrix)
    (hge : 2 ≤ S.sa_levels.length)
    (heq : S.parent.levels.length = S.sa_levels.length) :
    ((sa_finalize S A).parent.levels.getLastD default).A =
      (S.sa_levels.getLastD default).A_ := by
  rw [getLastD_eq_getD, sa_finalize_lv_length S A heq, getLastD_eq_getD]
  show ((resize_first_level (transfer_loop
      ⟨⟨S.parent.num_rows, S.parent.num_cols, S.parent.num_entries,
        S.parent.levels, some (S.sa_levels.getLastD default).A_⟩,
       S.sa_levels⟩) A).parent.levels.getD (S.sa_levels.length - 1) default).A =
    (S.sa_levels.getD (S.sa_levels.length - 1) default).A_
  exact finalize_chain_A _ A (S.sa_levels.length - 1) (by omega)
    (show S.sa_levels.length - 1 < S.sa_levels.length by omega) heq

theorem getD_zero_append_single_field {β : Type _} (xs : List α) (y : α) (d : α)
    (g : α → β) (hy : g y = g d) :
    g ((xs ++ [y]).getD 0 d) = g (xs.getD 0 d) := by
  cases xs with
  | nil => simpa using hy
  | cons x xs' => rfl

/-- One coarsening step never touches the `A` field of the first
solver-facing level. -/
theorem extend_A0 (opts : SAOptions) (s : SAState) (A : SpMatrix) :
    ((extend_hierarchy opts s A).parent.levels.getD 0 default).A =
      (s.parent.levels.getD 0 default).A := by
  simp only [extend_hierarchy]
  refine ((getD_zero_append_single_field _ _ _ PLevel.A ?_).trans ?_)
  · rfl
  · refine getD_updateLast_field _ _ _ _ PLevel.A ?_
    intro l; rfl

/-- The while loop never touches the `A` field of the first solver-facing
level. -/
theorem sa_loop_A0 (opts : SAOptions) (fuel : Nat) (s : SAState) :
    ((sa_loop opts fuel s).parent.levels.getD 0 default).A =
      (s.parent.levels.getD 0 default).A := by
  induction fuel generalizing s with
  | zero => rfl
  | succ n ih =>
    by_cases hc : (s.sa_levels.getLastD default).A_.num_rows > opts.min_level_size ∧
        s.sa_levels.length < opts.max_levels
    · rw [sa_loop, if_pos hc, ih, extend_A0]
    · rw [sa_loop, if_neg hc]

/-- The pre-loop setup leaves the first solver-facing level's operator
default-constructed. -/
theorem sa_setup_pre_A0 (opts : SAOptions) (s : SAState) (A : SpMatrix)
    (B : List Int) (hlv0 : s.parent.levels = []) :
    ((sa_setup_pre opts s A B).parent.levels.getD 0 default).A = default := by
  simp only [sa_setup_pre, hlv0, List.nil_append]
  by_cases h : A.num_rows > opts.min_level_size
  · rw [if_pos h]
    refine ((getD_updateLast_field _ _ _ _ PLevel.A ?_).trans ?_)
    · intro l; rfl
    · rw [extend_A0]; rfl
  · rw [if_neg h]; rfl

theorem sa_setup_pre_lv_pos (opts : SAOptions) (s : SAState) (A : SpMatrix)
    (B : List Int) (hlv0 : s.parent.levels = []) :
    1 ≤ (sa_setup_pre opts s A B).parent.levels.length := by
  simp only [sa_setup_pre, hlv0, List.nil_append]
  by_cases h : A.num_rows > opts.min_level_size
  · rw [if_pos h]; simp [length_updateLast, extend_lv_length]
  · rw [if_neg h]; simp

theorem sa_loop_lv_ge (opts : SAOptions) (fuel : Nat) (s : SAState) :
    s.parent.levels.length ≤ (sa_loop opts fuel s).parent.levels.length := by
  induction fuel generalizing s with
  | zero => exact Nat.le_refl _
  | succ n ih =>
    by_cases hc : (s.sa_levels.getLastD default).A_.num_rows > opts.min_level_size ∧
        s.sa_levels.length < opts.max_levels
    · rw [sa_loop, if_pos hc]
      calc s.parent.levels.length
          ≤ (extend_hierarchy opts s
              (s.sa_levels.getLastD default).A_).parent.levels.length := by
            rw [extend_lv_length]; omega
        _ ≤ _ := ih _
    · rw [sa_loop, if_neg hc]

/-- The transfer loop never touches the `A` field of the first
solver-facing level (its indices all start at 1). -/
theorem transfer_fold_A0 (is : List Nat) (s : SAState) (h : ∀ i ∈ is, 1 ≤ i) :
    (((is.foldl transfer_step s)).parent.levels.getD 0 default).A =
      (s.parent.levels.getD 0 default).A := by
  induction is generalizing s with
  | nil => rfl
  | cons j js ih =>
    rw [List.foldl_cons, ih _ (fun i hi => h i (List.mem_cons_of_mem _ hi))]
    rw [transfer_step_A]
    have hj : 1 ≤ j := h j (List.mem_cons_self _ _)
    rw [if_neg (by omega)]

theorem resize_first_getD_zero (s : SAState) (A : SpMatrix)
    (hne : s.parent.levels ≠ []) :
    ((resize_first_level s A).parent.levels.getD 0 default).A =
      base_resize (s.parent.levels.getD 0 default).A
        A.num_rows A.num_cols A.num_entries := by
  rcases hs : s.parent.levels with _ | ⟨l0, rest⟩
  · exact absurd hs hne
  · simp [resize_first_level, hs]

theorem withSolver_sa (s : SAState) (v : Option SpMatrix) :
    (withSolver s v).sa_levels = s.sa_levels := rfl

theorem extend_withSolver (opts : SAOptions) (s : SAState) (A : SpMatrix)
    (v : Option SpMatrix) :
    extend_hierarchy opts (withSolver s v) A =
      withSolver (extend_hierarchy opts s A) v := rfl

theorem sa_loop_withSolver (opts : SAOptions) (fuel : Nat) (s : SAState)
    (v : Option SpMatrix) :
    sa_loop opts fuel (withSolver s v) = withSolver (sa_loop opts fuel s) v := by
  induction fuel generalizing s with
  | zero => rfl
  | succ n ih =>
    rw [sa_loop, sa_loop]
    simp only [withSolver_sa]
    by_cases hc : (s.sa_levels.getLastD default).A_.num_rows > opts.min_level_size ∧
        s.sa_levels.length < opts.max_levels
    · rw [if_pos hc, if_pos hc, extend_withSolver, ih]
    · rw [if_neg hc, if_neg hc]

theorem transfer_step_withSolver (s : SAState) (lvl : Nat) (v : Option SpMatrix) :
    transfer_step (withSolver s v) lvl = withSolver (transfer_step s lvl) v := rfl

theorem transfer_fold_withSolver (is : List Nat) (s : SAState)
    (v : Option SpMatrix) :
    is.foldl transfer_step (withSolver s v) =
      withSolver (is.foldl transfer_step s) v := by
  induction is generalizing s with
  | nil => rfl
  | cons j js ih => rw [List.foldl_cons, List.foldl_cons, transfer_step_withSolver, ih]

theorem transfer_loop_withSolver (s : SAState) (v : Option SpMatrix) :
    transfer_loop (withSolver s v) = withSolver (transfer_loop s) v := by
  simp only [transfer_loop, withSolver_sa]
  exact transfer_fold_withSolver _ _ _

theorem sa_finalize_withSolver (s : SAState) (A : SpMatrix)
    (v : Option SpMatrix) :
    sa_finalize (withSolver s v) A = sa_finalize s A := by
  show resize_first_level (transfer_loop (withSolver (withSolver s v)
      (some (((withSolver s v).sa_levels.getLastD default)).A_))) A =
    resize_first_level (transfer_loop (withSolver s
      (some ((s.sa_levels.getLastD default)).A_))) A
  rw [show withSolver (withSolver s v)
        (some (((withSolver s v).sa_levels.getLastD default)).A_) =
      withSolver s (some ((s.sa_levels.getLastD default)).A_) from rfl]

/-- The pre-loop setup overwrites the solver base's dimension fields and
never reads them or the solver slot, so any incoming dimensions and
solver produce the same result up to the untouched solver slot. -/
theorem sa_setup_pre_meta (opts : SAOptions) (nr nc ne : Nat)
    (lvs : List PLevel) (sv : Option SpMatrix) (sl : List SALevel)
    (A : SpMatrix) (B : List Int) :
    sa_setup_pre opts ⟨⟨nr, nc, ne, lvs, sv⟩, sl⟩ A B =
      withSolver (sa_setup_pre opts ⟨⟨0, 0, 0, lvs, none⟩, sl⟩ A B) sv := by
  by_cases h : A.num_rows > opts.min_level_size
  · simp only [sa_setup_pre, withSolver, if_pos h]
    rfl
  · simp only [sa_setup_pre, withSolver, if_neg h]

/-- C6: constructing a hierarchy again on an object that already holds one
is identical to constructing it on a fresh (default) object: the reset at
lines 90-94 discards all level records and solver-facing levels, the
dimension fields are overwritten by `Parent::resize`, and the stale coarse
solver is overwritten at line 118 before ever being read. -/
theorem reinitialize_fresh (opts : SAOptions) (s : SAState) (A : SpMatrix)
    (B : List Int) (h : 0 < s.sa_levels.length) :
    sa_initialize2 opts s A B = sa_initialize2 opts default A B := by
  simp only [sa_initialize2, sa_setup]
  have hr : sa_reset s = ⟨⟨s.parent.num_rows, s.parent.num_cols,
      s.parent.num_entries, [], s.parent.solver⟩, []⟩ := by
    rcases s with ⟨⟨nr, nc, ne, lvs, sv⟩, sl⟩
    rcases sl with _ | ⟨l, ls⟩
    · simp at h
    · simp [sa_reset]
  have hrd : sa_reset (default : SAState) = ⟨⟨0, 0, 0, [], none⟩, []⟩ := rfl
  rw [hr, hrd, sa_setup_pre_meta, sa_loop_withSolver, sa_finalize_withSolver]

/-- Witness for C6: rebuilding from `exA` on an object that already holds
the hierarchy built from `exSmall` equals the fresh build from `exA`. -/
theorem reinitialize_fresh_witness :
    sa_initialize2 exOpts (sa_initialize2 exOpts default exSmall [1]) exA
        (constant_array 4 1) =
      sa_initialize2 exOpts default exA (constant_array 4 1) :=
  reinitialize_fresh exOpts (sa_initialize2 exOpts default exSmall [1]) exA
    (constant_array 4 1) (by decide)

theorem sa_finalize_R (S : SAState) (A : SpMatrix) (i : Nat) :
    ((sa_finalize S A).parent.levels.getD i default).R =
      (S.parent.levels.getD i default).R := by
  show ((resize_first_level (transfer_loop
      (withSolver S (some (S.sa_levels.getLastD default).A_))) A).parent.levels.getD
      i default).R = _
  rw [resize_first_R]
  simp only [transfer_loop]
  rw [transfer_fold_R]
  rfl

theorem sa_finalize_P (S : SAState) (A : SpMatrix) (i : Nat) :
    ((sa_finalize S A).parent.levels.getD i default).P =
      (S.parent.levels.getD i default).P := by
  show ((resize_first_level (transfer_loop
      (withSolver S (some (S.sa_levels.getLastD default).A_))) A).parent.levels.getD
      i default).P = _
  rw [resize_first_P]
  simp only [transfer_loop]
  rw [transfer_fold_P]
  rfl

theorem sa_finalize_aggs (S : SAState) (A : SpMatrix) (i : Nat) :
    ((sa_finalize S A).sa_levels.getD i default).aggregates =
      (S.sa_levels.getD i default).aggregates := by
  show ((transfer_loop (withSolver S
      (some (S.sa_levels.getLastD default).A_))).sa_levels.getD
      i default).aggregates = _
  simp only [transfer_loop]
  rw [transfer_fold_aggs]
  rfl

theorem sa_finalize_A_pos (S : SAState) (A : SpMatrix) (i : Nat)
    (h1 : 1 ≤ i) (h2 : i < S.sa_levels.length)
    (heq : S.parent.levels.length = S.sa_levels.length) :
    ((sa_finalize S A).parent.levels.getD i default).A =
      (S.sa_levels.getD i default).A_ := by
  show ((resize_first_level (transfer_loop
      (withSolver S (some (S.sa_levels.getLastD default).A_))) A).parent.levels.getD
      i default).A = _
  exact finalize_chain_A (withSolver S (some (S.sa_levels.getLastD default).A_))
    A i h1 h2 heq

theorem sa_finalize_A0_rows (S : SAState) (A : SpMatrix)
    (hpos : 0 < S.parent.levels.length) :
    ((sa_finalize S A).parent.levels.getD 0 default).A.num_rows = A.num_rows := by
  show ((resize_first_level (transfer_loop
      (withSolver S (some (S.sa_levels.getLastD default).A_))) A).parent.levels.getD
      0 default).A.num_rows = _
  have hlen : (transfer_loop (withSolver S
      (some (S.sa_levels.getLastD default).A_))).parent.levels.length =
      S.parent.levels.length := by
    simp only [transfer_loop, transfer_fold_lv_length]
    rfl
  rw [resize_first_getD_zero _ _ (by
    intro hc
    rw [hc] at hlen
    simp at hlen
    omega)]
  rfl

/-- C9: omitting the candidate vector is equivalent to supplying an
all-ones vector of length `rows(A)` explicitly: the one-argument overload
delegates to the two-argument one with `constant_array(A.num_rows, 1)`,
which is exactly the all-ones vector of that length, so the two calls
produce identical hierarchies. -/
theorem candidate_default_all_ones (opts : SAOptions) (s : SAState) (A : SpMatrix) :
    sa_initialize1 opts s A =
      sa_initialize2 opts s A (List.replicate A.num_rows (1 : Int)) ∧
    constant_array A.num_rows 1 = List.replicate A.num_rows (1 : Int) :=
  ⟨rfl, rfl⟩

/-- C8: both transfer paths of `setup_level_matrix` leave the destination
holding a matrix numerically identical to the original source (the
same-type swap hands over the source itself; the cross-format converting
assignment preserves the numerical content), and on the swap path the
source is left holding the destination's old value, hence logically empty
whenever the destination was default-constructed — as at the call sites. -/
theorem setup_level_matrix_transfer_paths (dst src : SpMatrix)
    (dstFmt : MatrixFormat) (srcF : FormatMatrix) (h : dst = default) :
    (setup_level_matrix dst src).1 = src ∧
    (setup_level_matrix_convert dstFmt srcF).mat = srcF.mat ∧
    (setup_level_matrix dst src).2 = default :=
  ⟨rfl, rfl, h⟩

/-- Witness for C8 at a concrete destination/source pair. -/
theorem setup_level_matrix_transfer_paths_witness :
    (setup_level_matrix default exA).1 = exA ∧
    (setup_level_matrix_convert MatrixFormat.dia ⟨MatrixFormat.coo, exA⟩).mat = exA ∧
    (setup_level_matrix default exA).2 = default :=
  setup_level_matrix_transfer_paths default exA MatrixFormat.dia
    ⟨MatrixFormat.coo, exA⟩ rfl

/-- C1 (code-bug evidence): on a concrete 3-level build whose level 0 has
more than `min_level_size` rows, the smoother built from the input
operator `A0` ends up on solver-facing level 1 (`Parent::levels.back()` at
the time of line 109), and level 0 is left with no smoother at all —
contradicting the claim that level 0 receives a smoother bound to `A0` and
level 1 a smoother bound to `A_1`. -/
theorem smoother_installed_on_back_not_per_level :
    exA.num_rows > exOpts.min_level_size ∧
    (sa_initialize1 exOpts default exA).sa_levels.length = 3 ∧
    ((sa_initialize1 exOpts default exA).parent.levels.getD 0 default).smoother = none ∧
    ((sa_initialize1 exOpts default exA).parent.levels.getD 1 default).smoother = some exA := by
  refine ⟨by decide, by decide, by decide, by decide⟩

/-- C10: each coarsening step invokes the aggregation strategy on an
aggregates array of length `rows(C)` with every entry zero: the result of
`extend_hierarchy` depends on the `aggregate` strategy only through its
value at `(C, aggregates_init C)`, and `aggregates_init C` is the all-zero
array of length `C.num_rows`, so any entry the strategy leaves untouched
stays `0`. -/
theorem aggregate_invoked_on_zero_array (opts : SAOptions)
    (f : SpMatrix → List Nat → List Nat) (s : SAState) (A : SpMatrix)
    (h : f (opts.strength_of_connection A)
           (aggregates_init (opts.strength_of_connection A)) =
         opts.aggregate (opts.strength_of_connection A)
           (aggregates_init (opts.strength_of_connection A))) :
    extend_hierarchy { opts with aggregate := f } s A = extend_hierarchy opts s A ∧
    (aggregates_init (opts.strength_of_connection A)).length =
      (opts.strength_of_connection A).num_rows ∧
    ∀ v ∈ aggregates_init (opts.strength_of_connection A), v = 0 := by
  refine ⟨?_, by simp [aggregates_init], ?_⟩
  · simp only [extend_hierarchy, h]
  · intro v hv
    simpa [aggregates_init] using (List.eq_of_mem_replicate hv)

theorem sa_loop_no_iter (opts : SAOptions) (fuel : Nat) (s : SAState)
    (h : ¬((s.sa_levels.getLastD default).A_.num_rows > opts.min_level_size ∧
           s.sa_levels.length < opts.max_levels)) :
    sa_loop opts fuel s = s := by
  cases fuel with
  | zero => rfl
  | succ n => simp only [sa_loop, if_neg h]

/-- The degenerate case `rows(A) ≤ min_level_size`: the whole build
reduces to a single level with no strategy ever consulted. -/
theorem degenerate_build_eq (opts : SAOptions) (s : SAState) (A : SpMatrix)
    (B : List Int) (hcons : s.sa_levels = [] → s.parent.levels = [])
    (h : A.num_rows ≤ opts.min_level_size) :
    sa_initialize2 opts s A B =
      ⟨⟨A.num_rows, A.num_cols, A.num_entries,
        [⟨⟨A.num_rows, A.num_cols, A.num_entries, []⟩, default, default, 0, 0, 0, none⟩],
        some default⟩,
       [⟨default, B, [], 0⟩]⟩ := by
  have hreset : sa_reset s =
      ⟨⟨s.parent.num_rows, s.parent.num_cols, s.parent.num_entries, [],
        s.parent.solver⟩, []⟩ := by
    rcases s with ⟨⟨nr, nc, ne, lvs, sv⟩, sl⟩
    rcases sl with _ | ⟨l, ls⟩
    · have hlv : lvs = [] := hcons rfl
      subst hlv; rfl
    · simp [sa_reset]
  rw [sa_initialize2, hreset]
  have hsetup : sa_setup opts
      ⟨⟨s.parent.num_rows, s.parent.num_cols, s.parent.num_entries, [],
        s.parent.solver⟩, []⟩ A B =
      ⟨⟨A.num_rows, A.num_cols, A.num_entries, [default], s.parent.solver⟩,
       [⟨default, B, [], 0⟩]⟩ := by
    simp only [sa_setup, sa_setup_pre, List.nil_append]
    rw [if_neg (Nat.not_lt.mpr h)]
    exact sa_loop_no_iter _ _ _ (fun hc => Nat.not_lt_zero _ hc.1)
  rw [hsetup]
  rfl

/-- C3: for inputs with `rows(A0) ≤ min_level_size` the hierarchy has
exactly one level record and one solver-facing level, and none of the six
coarsening strategies is ever invoked — expressed as: the result is
identical for any two options bundles agreeing on `min_level_size`, no
matter how their strategy objects differ. -/
theorem degenerate_one_level_no_strategies (opts opts' : SAOptions) (s : SAState)
    (A : SpMatrix) (B : List Int)
    (hmin : opts'.min_level_size = opts.min_level_size)
    (hcons : s.sa_levels = [] → s.parent.levels = [])
    (h : A.num_rows ≤ opts.min_level_size) :
    sa_initialize2 opts s A B = sa_initialize2 opts' s A B ∧
    (sa_initialize2 opts s A B).sa_levels.length = 1 ∧
    (sa_initialize2 opts s A B).parent.levels.length = 1 := by
  have e1 := degenerate_build_eq opts s A B hcons h
  have e2 := degenerate_build_eq opts' s A B hcons (by rw [hmin]; exact h)
  exact ⟨e1.trans e2.symm, by rw [e1]; rfl, by rw [e1]; rfl⟩

/-- Witness for C3: a 1 x 1 input with `min_level_size = 1`, compared
across two bundles with entirely different strategy objects. -/
theorem degenerate_one_level_no_strategies_witness :
    (sa_initialize2 exOpts default exSmall [1] =
      sa_initialize2 exOptsAlt default exSmall [1]) ∧
    (sa_initialize2 exOpts default exSmall [1]).sa_levels.length = 1 ∧
    (sa_initialize2 exOpts default exSmall [1]).parent.levels.length = 1 :=
  degenerate_one_level_no_strategies exOpts exOptsAlt default exSmall [1]
    rfl (fun _ => rfl) (by decide)

/-- C4: in the degenerate no-coarsening case the coarse-level solver is
constructed from the single level record's operator field, which is still
the default-constructed empty matrix (0 rows, 0 columns, 0 entries) — not
from the input operator `A0`. -/
theorem degenerate_solver_from_empty_record (opts : SAOptions) (s : SAState)
    (A : SpMatrix) (B : List Int)
    (hcons : s.sa_levels = [] → s.parent.levels = [])
    (h : A.num_rows ≤ opts.min_level_size) :
    (sa_initialize2 opts s A B).parent.solver = some (⟨0, 0, 0, []⟩ : SpMatrix) ∧
    (sa_initialize2 opts s A B).sa_levels.length = 1 := by
  rw [degenerate_build_eq opts s A B hcons h]
  exact ⟨rfl, rfl⟩

/-- Witness for C4: the 1 x 1 input `exSmall` (a nonempty matrix) still
yields a coarse solver bound to the empty matrix. -/
theorem degenerate_solver_from_empty_record_witness :
    (sa_initialize2 exOpts default exSmall [1]).parent.solver =
      some (⟨0, 0, 0, []⟩ : SpMatrix) ∧
    (sa_initialize2 exOpts default exSmall [1]).sa_levels.length = 1 :=
  degenerate_solver_from_empty_record exOpts default exSmall [1]
    (fun _ => rfl) (by decide)

/-- C2 (counterexample): with `max_levels = 1` and a 4-row input whose row
count exceeds `min_level_size`, construction still performs the first
coarsening step unconditionally, producing 2 levels — more than
`max_levels` — so the claim fails as stated for arbitrary options. -/
theorem termination_bound_counterexample :
    ¬((sa_initialize1 exOptsCap default exA).sa_levels.length ≤
        exOptsCap.max_levels) := by decide

/-- C2 (amended): provided `max_levels ≥ 2`, the number of levels built
never exceeds `max_levels`, and when construction finishes the last
level's operator has `rows ≤ min_level_size` or the level count equals
`max_levels`.  (The `max_levels ≥ 2` proviso is forced: the first
coarsening step at line 104-110 is guarded only by `min_level_size`, so
`max_levels ≤ 1` is overshot, see the counterexample.) -/
theorem termination_bound (opts : SAOptions) (s : SAState) (A : SpMatrix)
    (B : List Int) (hcons : s.sa_levels = [] → s.parent.levels = [])
    (hmax : 2 ≤ opts.max_levels) :
    (sa_initialize2 opts s A B).sa_levels.length ≤ opts.max_levels ∧
    (((sa_initialize2 opts s A B).parent.levels.getLastD default).A.num_rows ≤
        opts.min_level_size ∨
      (sa_initialize2 opts s A B).sa_levels.length = opts.max_levels) := by
  by_cases h : A.num_rows ≤ opts.min_level_size
  · rw [degenerate_build_eq opts s A B hcons h]
    exact ⟨by simp; omega, Or.inl (by simpa using h)⟩
  · have h' : opts.min_level_size < A.num_rows := Nat.not_le.mp h
    obtain ⟨hlv0, hsa0⟩ := sa_reset_empty s hcons
    obtain ⟨hpre_sa, hpre_lv⟩ :=
      sa_setup_pre_lengths opts (sa_reset s) A B hlv0 hsa0 h'
    simp only [sa_initialize2, sa_setup]
    set t := sa_setup_pre opts (sa_reset s) A B with htdef
    have hSle : (sa_loop opts opts.max_levels t).sa_levels.length ≤
        opts.max_levels := sa_loop_length_le _ _ _ (by omega)
    have hSge : 2 ≤ (sa_loop opts opts.max_levels t).sa_levels.length := by
      have := sa_loop_length_ge opts opts.max_levels t; omega
    have hSeq : (sa_loop opts opts.max_levels t).parent.levels.length =
        (sa_loop opts opts.max_levels t).sa_levels.length :=
      sa_loop_lengths _ _ _ (by omega)
    have hexit := sa_loop_exit opts opts.max_levels t (by omega)
    set S := sa_loop opts opts.max_levels t with hSdef
    have hFsa : (sa_finalize S A).sa_levels.length = S.sa_levels.length :=
      sa_finalize_sa_length S A
    refine ⟨by omega, ?_⟩
    by_cases hrows : (S.sa_levels.getLastD default).A_.num_rows ≤
        opts.min_level_size
    · left
      rw [sa_finalize_last_A S A hSge hSeq]
      exact hrows
    · right
      have hge2 : opts.max_levels ≤ S.sa_levels.length := by
        rcases Nat.lt_or_ge S.sa_levels.length opts.max_levels with hlt | hge
        · exact absurd ⟨Nat.not_le.mp hrows, hlt⟩ hexit
        · exact hge
      omega

/-- Witness for C2 (amended) at a concrete options bundle with
`max_levels = 10 ≥ 2`. -/
theorem termination_bound_witness :
    (sa_initialize2 exOpts default exA [1, 1, 1, 1]).sa_levels.length ≤
      exOpts.max_levels ∧
    (((sa_initialize2 exOpts default exA
          [1, 1, 1, 1]).parent.levels.getLastD default).A.num_rows ≤
        exOpts.min_level_size ∨
      (sa_initialize2 exOpts default exA [1, 1, 1, 1]).sa_levels.length =
        exOpts.max_levels) :=
  termination_bound exOpts default exA [1, 1, 1, 1] (fun _ => rfl) (by decide)

/-- C7: under the strategy shape contracts taken as hypotheses, every
coarsened level `k` of the built hierarchy satisfies the dimension chain:
`rows(R_k) = cols(P_k) = rows(A_(k+1))`, `cols(R_k) = rows(P_k) =
rows(A_k)`, and the aggregate map stored on level `k` has length
`rows(A_k)` — where `A_j` is the operator of solver-facing level `j`
(whose dimension fields for `j = 0` are the input's). -/
theorem dimension_chain (opts : SAOptions) (s : SAState) (A : SpMatrix)
    (B : List Int)
    (hcons : s.sa_levels = [] → s.parent.levels = [])
    (hsoc : ∀ M, (opts.strength_of_connection M).num_rows = M.num_rows)
    (hagg : ∀ C arr, (opts.aggregate C arr).length = arr.length)
    (hfit : ∀ aggs Bv, ((opts.fit_candidates aggs Bv).1).num_rows = aggs.length)
    (hsm : ∀ M T, ((opts.smooth_prolongator M T).1).num_rows = T.num_rows)
    (hres : ∀ P, (opts.form_restriction P).num_rows = P.num_cols ∧
                 (opts.form_restriction P).num_cols = P.num_rows)
    (hgal : ∀ R M P, (opts.galerkin_product R M P).num_rows = R.num_rows ∧
                     (opts.galerkin_product R M P).num_cols = P.num_cols) :
    ∀ k, k + 1 < (sa_initialize2 opts s A B).sa_levels.length →
      ((sa_initialize2 opts s A B).parent.levels.getD k default).R.num_rows =
        ((sa_initialize2 opts s A B).parent.levels.getD (k + 1) default).A.num_rows ∧
      ((sa_initialize2 opts s A B).parent.levels.getD k default).P.num_cols =
        ((sa_initialize2 opts s A B).parent.levels.getD (k + 1) default).A.num_rows ∧
      ((sa_initialize2 opts s A B).parent.levels.getD k default).R.num_cols =
        ((sa_initialize2 opts s A B).parent.levels.getD k default).A.num_rows ∧
      ((sa_initialize2 opts s A B).parent.levels.getD k default).P.num_rows =
        ((sa_initialize2 opts s A B).parent.levels.getD k default).A.num_rows ∧
      ((sa_initialize2 opts s A B).sa_levels.getD k default).aggregates.length =
        ((sa_initialize2 opts s A B).parent.levels.getD k default).A.num_rows := by
  intro k hk
  obtain ⟨hlv0, hsa0⟩ := sa_reset_empty s hcons
  simp only [sa_initialize2, sa_setup] at hk ⊢
  set t := sa_setup_pre opts (sa_reset s) A B with htdef
  have hinv0 : chainInv A.num_rows t :=
    chainInv_setup_pre opts (sa_reset s) A B hsoc hagg hfit hsm hres hgal
      hlv0 hsa0
  have hinv : chainInv A.num_rows (sa_loop opts opts.max_levels t) :=
    chainInv_loop opts A.num_rows opts.max_levels t hsoc hagg hfit hsm hres
      hgal hinv0
  set S := sa_loop opts opts.max_levels t with hSdef
  obtain ⟨hlen, hone, hzero, hfacts⟩ := hinv
  rw [sa_finalize_sa_length] at hk
  obtain ⟨f1, f2, f3, f4, f5⟩ := hfacts k hk
  have hR := sa_finalize_R S A k
  have hP := sa_finalize_P S A k
  have haggs := sa_finalize_aggs S A k
  have hA1 : ((sa_finalize S A).parent.levels.getD (k + 1) default).A.num_rows =
      rowsAt A.num_rows S.sa_levels (k + 1) := by
    rw [sa_finalize_A_pos S A (k + 1) (by omega) (by omega) hlen]
    rw [rowsAt, if_neg (by omega)]
  have hA0 : ((sa_finalize S A).parent.levels.getD k default).A.num_rows =
      rowsAt A.num_rows S.sa_levels k := by
    by_cases hk0 : k = 0
    · subst hk0
      rw [sa_finalize_A0_rows S A (by omega)]
      rw [rowsAt, if_pos rfl]
    · rw [sa_finalize_A_pos S A k (by omega) (by omega) hlen]
      rw [rowsAt, if_neg hk0]
  refine ⟨?_, ?_, ?_, ?_, ?_⟩
  · rw [hA1, hR]; exact f1
  · rw [hA1, hP]; exact f2
  · rw [hA0, hR]; exact f3
  · rw [hA0, hP]; exact f4
  · rw [hA0, haggs]; exact f5

/-- Witness for C7: the concrete strategy bundle `exOpts` satisfies all
shape contracts; at level 0 of the 3-level build from `exA` the chain
facts hold. -/
theorem dimension_chain_witness :
    (0 + 1 < (sa_initialize2 exOpts default exA [1, 1, 1, 1]).sa_levels.length) ∧
    (((sa_initialize2 exOpts default exA [1, 1, 1, 1]).parent.levels.getD 0
        default).R.num_rows =
      ((sa_initialize2 exOpts default exA [1, 1, 1, 1]).parent.levels.getD 1
        default).A.num_rows ∧
    ((sa_initialize2 exOpts default exA [1, 1, 1, 1]).parent.levels.getD 0
        default).P.num_cols =
      ((sa_initialize2 exOpts default exA [1, 1, 1, 1]).parent.levels.getD 1
        default).A.num_rows ∧
    ((sa_initialize2 exOpts default exA [1, 1, 1, 1]).parent.levels.getD 0
        default).R.num_cols =
      ((sa_initialize2 exOpts default exA [1, 1, 1, 1]).parent.levels.getD 0
        default).A.num_rows ∧
    ((sa_initialize2 exOpts default exA [1, 1, 1, 1]).parent.levels.getD 0
        default).P.num_rows =
      ((sa_initialize2 exOpts default exA [1, 1, 1, 1]).parent.levels.getD 0
        default).A.num_rows ∧
    ((sa_initialize2 exOpts default exA [1, 1, 1, 1]).sa_levels.getD 0
        default).aggregates.length =
      ((sa_initialize2 exOpts default exA [1, 1, 1, 1]).parent.levels.getD 0
        default).A.num_rows) :=
  ⟨by decide,
   dimension_chain exOpts default exA [1, 1, 1, 1] (fun _ => rfl)
     (fun M => rfl) (fun C arr => rfl) (fun aggs Bv => rfl) (fun M T => rfl)
     (fun P => ⟨rfl, rfl⟩) (fun R M P => ⟨rfl, rfl⟩) 0 (by decide)⟩

/-- C5: the solver-facing level-0 operator never receives the input's
entry data: for every input and options it ends as a matrix whose
dimension fields equal the input's `num_rows`/`num_cols`/`num_entries`
while its index/value storage is empty — it starts default-constructed,
the transfer loop (indices from 1) never touches it, and the final base
resize sets only the dimension fields. -/
theorem level0_operator_shell (opts : SAOptions) (s : SAState) (A : SpMatrix)
    (B : List Int) (hcons : s.sa_levels = [] → s.parent.levels = []) :
    ((sa_initialize2 opts s A B).parent.levels.getD 0 default).A =
      ⟨A.num_rows, A.num_cols, A.num_entries, []⟩ := by
  obtain ⟨hlv0, hsa0⟩ := sa_reset_empty s hcons
  simp only [sa_initialize2, sa_setup]
  set t := sa_setup_pre opts (sa_reset s) A B with htdef
  have hpreA0 : ((t.parent.levels.getD 0 default)).A = default :=
    sa_setup_pre_A0 opts (sa_reset s) A B hlv0
  have hpre1 : 1 ≤ t.parent.levels.length :=
    sa_setup_pre_lv_pos opts (sa_reset s) A B hlv0
  have hSA0 : (((sa_loop opts opts.max_levels t).parent.levels.getD 0 default)).A
      = default := by rw [sa_loop_A0]; exact hpreA0
  have hS1 : 1 ≤ (sa_loop opts opts.max_levels t).parent.levels.length := by
    have := sa_loop_lv_ge opts opts.max_levels t; omega
  set S := sa_loop opts opts.max_levels t with hSdef
  show ((resize_first_level (transfer_loop
      ⟨⟨S.parent.num_rows, S.parent.num_cols, S.parent.num_entries,
        S.parent.levels, some (S.sa_levels.getLastD default).A_⟩,
       S.sa_levels⟩) A).parent.levels.getD 0 default).A =
    ⟨A.num_rows, A.num_cols, A.num_entries, []⟩
  have hTlen : (transfer_loop
      (⟨⟨S.parent.num_rows, S.parent.num_cols, S.parent.num_entries,
        S.parent.levels, some (S.sa_levels.getLastD default).A_⟩,
       S.sa_levels⟩ : SAState)).parent.levels.length =
      S.parent.levels.length := by
    simp only [transfer_loop, transfer_fold_lv_length]
  rw [resize_first_getD_zero _ _ (by
    intro hc
    rw [hc] at hTlen
    simp at hTlen
    omega)]
  have hz : ((transfer_loop
      (⟨⟨S.parent.num_rows, S.parent.num_cols, S.parent.num_entries,
        S.parent.levels, some (S.sa_levels.getLastD default).A_⟩,
       S.sa_levels⟩ : SAState)).parent.levels.getD 0 default).A = default := by
    simp only [transfer_loop]
    rw [transfer_fold_A0 _ _ (fun i hi => by
      have := List.mem_range'_1.mp hi; omega)]
    exact hSA0
  rw [hz]
  rfl

/-- Witness for C5 at the concrete input `exA`. -/
theorem level0_operator_shell_witness :
    ((sa_initialize2 exOpts default exA [1, 1, 1, 1]).parent.levels.getD 0
        default).A =
      ⟨exA.num_rows, exA.num_cols, exA.num_entries, []⟩ :=
  level0_operator_shell exOpts default exA [1, 1, 1, 1] (fun _ => rfl)

/-- Witness for C10 at a concrete strategy bundle and input. -/
theorem aggregate_invoked_on_zero_array_witness :
    extend_hierarchy { exOpts with aggregate := exOpts.aggregate }
        ⟨default, [default]⟩ exA =
      extend_hierarchy exOpts ⟨default, [default]⟩ exA ∧
    (aggregates_init (exOpts.strength_of_connection exA)).length =
      (exOpts.strength_of_connection exA).num_rows ∧
    ∀ v ∈ aggregates_init (exOpts.strength_of_connection exA), v = 0 :=
  aggregate_invoked_on_zero_array exOpts exOpts.aggregate ⟨default, [default]⟩ exA rfl

end Cusp
